import Mathlib

/-!
A verification development for the Batch-Cropper image-cropping tool
(single Python source file, wxPython GUI).  The interactive
selection-geometry engine, the display-to-source coordinate mapper, the
bounded undo history and the batch transform pipeline are embedded
shallowly:

* display-space rectangles are quadruples of integers (`IRect`), matching
  wx.Rect with its wxWidgets conventions (Right = x + width - 1,
  Bottom = y + height - 1);
* Python float arithmetic on coordinates is modelled exactly over `ℚ`
  (the only divergence is at exact representation limits of binary
  floating point, far below the integer-pixel granularity the geometry
  rounds to); Python's banker's rounding `round` is `pyRound`;
* Python strings (file paths) are `List Char`; `os.path.splitext` is
  modelled after CPython's `genericpath._splitext` with the Windows
  separators used by the application;
* PIL images, the file system and the image codecs are external
  collaborators: they appear as opaque type parameters and as oracle
  functions returning `Option` (with `none` for a raised exception).

Sources are cited by the Python function names they are translated from.
-/

/-- Constant MIN_CROP_SIZE = 4 from the source. -/
def MIN_CROP_SIZE : ℤ := 4

/-- Constant MAX_HISTORY = 10 from the source. -/
def MAX_HISTORY : ℕ := 10

/-- Python 3 `int(round(x))` for an exact rational `x`: round half to even. -/
def pyRound (q : ℚ) : ℤ :=
  let f := ⌊q⌋
  let d := q - f
  if d < 1/2 then f else if 1/2 < d then f + 1 else if f % 2 = 0 then f else f + 1

/-- A display-space rectangle, as the Python code's `wx.Rect` / `crop_rect`
tuple `(x, y, w, h)`. -/
structure IRect where
  x : ℤ
  y : ℤ
  w : ℤ
  h : ℤ
deriving DecidableEq

/-- `PreviewPanel._clamp_display_point`: clamp a display point into
`[0, display_w] × [0, display_h]`. -/
def clampDisplayPoint (W H : ℤ) (p : ℤ × ℤ) : ℤ × ℤ :=
  (max 0 (min p.1 W), max 0 (min p.2 H))

/-- `PreviewPanel._ensure_within_display`, translated statement by
statement.  `wx.Rect.Right` is `x + width - 1` and `wx.Rect.Bottom` is
`y + height - 1` (wxWidgets convention), hence the `- 1` in the two
overflow tests. -/
def ensureWithinDisplay (W H : ℤ) (r : IRect) : IRect :=
  if W ≤ 0 ∨ H ≤ 0 then ⟨0, 0, 0, 0⟩
  else
    let w1 := if W < r.w then W else r.w
    let h1 := if H < r.h then H else r.h
    let x1 := if r.x < 0 then 0 else r.x
    let y1 := if r.y < 0 then 0 else r.y
    let x2 := if W < x1 + w1 - 1 then W - w1 else x1
    let y2 := if H < y1 + h1 - 1 then H - h1 else y1
    let w2 := max MIN_CROP_SIZE w1
    let h2 := max MIN_CROP_SIZE h1
    let x3 := max 0 (min x2 (W - w2))
    let y3 := max 0 (min y2 (H - h2))
    ⟨x3, y3, w2, h2⟩

/-- `PreviewPanel._ensure_min_size`: normalize via
`_ensure_within_display`, force both dimensions up to `MIN_CROP_SIZE`,
then normalize again. -/
def ensureMinSize (W H : ℤ) (r : IRect) : IRect :=
  let r1 := ensureWithinDisplay W H r
  let w2 := if r1.w < MIN_CROP_SIZE then MIN_CROP_SIZE else r1.w
  let h2 := if r1.h < MIN_CROP_SIZE then MIN_CROP_SIZE else r1.h
  ensureWithinDisplay W H ⟨r1.x, r1.y, w2, h2⟩

/-- The selection-rectangle invariant claimed in the spec: at least
`MIN_CROP_SIZE` in both dimensions, fully contained in
`[0, displayW] × [0, displayH]`. -/
def InvariantRect (W H : ℤ) (r : IRect) : Prop :=
  MIN_CROP_SIZE ≤ r.w ∧ MIN_CROP_SIZE ≤ r.h ∧ 0 ≤ r.x ∧ 0 ≤ r.y ∧ r.x + r.w ≤ W ∧ r.y + r.h ≤ H

instance (W H : ℤ) (r : IRect) : Decidable (InvariantRect W H r) := by
  unfold InvariantRect
  infer_instance

/-- `PreviewPanel._create_rect_with_ratio`, the delta-adjustment stage
(lines computing `abs_dx`, `abs_dy` from the raw drag deltas and the
locked aspect value `ar`). -/
def ratioDeltas (adx0 ady0 : ℤ) (ar : ℚ) : ℤ × ℤ :=
  let ady1 := if ady0 = 0 then pyRound ((adx0 : ℚ) / ar) else ady0
  let adx1 := if adx0 = 0 then pyRound ((ady1 : ℚ) * ar) else adx0
  let cr : ℚ := if ady1 ≠ 0 then (adx1 : ℚ) / (ady1 : ℚ) else ar
  if ar < cr then (pyRound ((ady1 : ℚ) * ar), ady1) else (adx1, pyRound ((adx1 : ℚ) / ar))

/-- `PreviewPanel._create_rect_with_ratio`, rectangle construction from
the adjusted deltas (before the trailing `_ensure_within_display`). -/
def ratioCreateCore (ax ay cx cy : ℤ) (ar : ℚ) : IRect :=
  let dx := cx - ax
  let dy := cy - ay
  let d := ratioDeltas |dx| |dy| ar
  let x2 := ax + (if 0 ≤ dx then d.1 else -d.1)
  let y2 := ay + (if 0 ≤ dy then d.2 else -d.2)
  ⟨min ax x2, min ay y2, |x2 - ax|, |y2 - ay|⟩

/-- `PreviewPanel._create_rect_with_ratio` in full: the degenerate drag
returns a zero rectangle at the anchor without normalization, every other
drag is normalized by `_ensure_within_display`. -/
def ratioCreateRect (W H ax ay cx cy : ℤ) (ar : ℚ) : IRect :=
  if cx - ax = 0 ∧ cy - ay = 0 then ⟨ax, ay, 0, 0⟩
  else ensureWithinDisplay W H (ratioCreateCore ax ay cx cy ar)

/-- The eight resize handles of the selection rectangle. -/
inductive Handle where
  | top_left
  | top
  | top_right
  | right
  | bottom_right
  | bottom
  | bottom_left
  | left
deriving DecidableEq

/-- Python substring test: the string "left" occurs in the handle name. -/
def hasLeft : Handle → Bool
  | .left => true
  | .top_left => true
  | .bottom_left => true
  | _ => false

/-- Python substring test: the string "right" occurs in the handle name. -/
def hasRight : Handle → Bool
  | .right => true
  | .top_right => true
  | .bottom_right => true
  | _ => false

/-- Python substring test: the string "top" occurs in the handle name. -/
def hasTop : Handle → Bool
  | .top => true
  | .top_left => true
  | .top_right => true
  | _ => false

/-- Python substring test: the string "bottom" occurs in the handle name. -/
def hasBottom : Handle → Bool
  | .bottom => true
  | .bottom_left => true
  | .bottom_right => true
  | _ => false

/-- `PreviewPanel._resize_free`.  `rect.Right` and `rect.Bottom` are
`x + w - 1` and `y + h - 1`. -/
def resizeFreeRect (W H : ℤ) (origin : IRect) (px py : ℤ) (hnd : Handle) : IRect :=
  let left0 := origin.x
  let top0 := origin.y
  let right0 := origin.x + origin.w - 1
  let bottom0 := origin.y + origin.h - 1
  let left1 := if hasLeft hnd then min px (right0 - MIN_CROP_SIZE) else left0
  let right1 := if hasRight hnd then max px (left1 + MIN_CROP_SIZE) else right0
  let top1 := if hasTop hnd then min py (bottom0 - MIN_CROP_SIZE) else top0
  let bottom1 := if hasBottom hnd then max py (top1 + MIN_CROP_SIZE) else bottom0
  let left2 := max 0 (min left1 W)
  let right2 := max 0 (min right1 W)
  let top2 := max 0 (min top1 H)
  let bottom2 := max 0 (min bottom1 H)
  ⟨left2, top2, max MIN_CROP_SIZE (right2 - left2), max MIN_CROP_SIZE (bottom2 - top2)⟩

/-- `PreviewPanel._rect_from_horizontal_anchor`. -/
def rectFromHorizontalAnchor (W H anchorX width0 : ℤ) (origin : IRect) (toLeft : Bool)
    (ar : ℚ) : IRect :=
  let w1 := max MIN_CROP_SIZE (min width0 W)
  let h1 := max MIN_CROP_SIZE (pyRound ((w1 : ℚ) / ar))
  let h2 := if H < h1 then H else h1
  let w2 := if H < h1 then max MIN_CROP_SIZE (pyRound ((H : ℚ) * ar)) else w1
  let centerY : ℚ := (origin.y : ℚ) + (origin.h : ℚ) / 2
  let top0 := pyRound (centerY - (h2 : ℚ) / 2)
  let top1 := max 0 (min top0 (H - h2))
  let bottom := top1 + h2
  if toLeft then
    let right := min anchorX W
    let left := max 0 (right - w2)
    ⟨left, top1, right - left, bottom - top1⟩
  else
    let left0 := max 0 anchorX
    let right := min W (left0 + w2)
    let left := right - w2
    ⟨left, top1, right - left, bottom - top1⟩

/-- `PreviewPanel._rect_from_vertical_anchor`. -/
def rectFromVerticalAnchor (W H anchorY height0 : ℤ) (origin : IRect) (toTop : Bool)
    (ar : ℚ) : IRect :=
  let h1 := max MIN_CROP_SIZE (min height0 H)
  let w1 := max MIN_CROP_SIZE (pyRound ((h1 : ℚ) * ar))
  let w2 := if W < w1 then W else w1
  let h2 := if W < w1 then max MIN_CROP_SIZE (pyRound ((W : ℚ) / ar)) else h1
  let centerX : ℚ := (origin.x : ℚ) + (origin.w : ℚ) / 2
  let left0 := pyRound (centerX - (w2 : ℚ) / 2)
  let left1 := max 0 (min left0 (W - w2))
  let right := left1 + w2
  if toTop then
    let bottom := min anchorY H
    let top := max 0 (bottom - h2)
    ⟨left1, top, right - left1, bottom - top⟩
  else
    let top0 := max 0 anchorY
    let bottom := min H (top0 + h2)
    let top := bottom - h2
    ⟨left1, top, right - left1, bottom - top⟩

/-- `PreviewPanel._resize_corner_with_ratio`.  The anchor is the opposite
corner, taken with the wx `Right`/`Bottom` convention (`x + w - 1`,
`y + h - 1`); ends with `_ensure_min_size` as in the source. -/
def ratioResizeCorner (W H : ℤ) (px py : ℤ) (hnd : Handle) (origin : IRect) (ar : ℚ) : IRect :=
  let axv : ℤ × ℤ × ℤ × ℤ :=
    match hnd with
    | .top_left => (origin.x + origin.w - 1, origin.y + origin.h - 1, -1, -1)
    | .top_right => (origin.x, origin.y + origin.h - 1, 1, -1)
    | .bottom_left => (origin.x + origin.w - 1, origin.y, -1, 1)
    | _ => (origin.x, origin.y, 1, 1)
  let ax := axv.1
  let ay := axv.2.1
  let hsign := axv.2.2.1
  let vsign := axv.2.2.2
  let dx0 := (px - ax) * hsign
  let dy0 := (py - ay) * vsign
  let dx1 := max MIN_CROP_SIZE (min |dx0| W)
  let dy1 := max MIN_CROP_SIZE (min |dy0| H)
  let dy2 := if dy1 = 0 then pyRound ((dx1 : ℚ) / ar) else dy1
  let dx2 := if dx1 = 0 then pyRound ((dy2 : ℚ) * ar) else dx1
  let w0 := dx2
  let h0 := pyRound ((w0 : ℚ) / ar)
  let h1 := if dy2 < h0 then dy2 else h0
  let w1 := if dy2 < h0 then pyRound ((dy2 : ℚ) * ar) else w0
  let h3 := max MIN_CROP_SIZE h1
  let w3 := max MIN_CROP_SIZE w1
  let left := if hsign < 0 then ax - w3 else ax
  let right := if hsign < 0 then ax else ax + w3
  let top := if vsign < 0 then ay - h3 else ay
  let bottom := if vsign < 0 then ay else ay + h3
  ensureMinSize W H ⟨left, top, right - left, bottom - top⟩

/-- `PreviewPanel._resize_with_ratio`: dispatch on the handle, then a
trailing `_ensure_min_size` (line `return self._ensure_min_size(rect)`). -/
def ratioResizeRect (W H : ℤ) (origin : IRect) (px py : ℤ) (hnd : Handle) (ar : ℚ) : IRect :=
  let rect :=
    match hnd with
    | .left =>
      let ax := origin.x + origin.w - 1
      rectFromHorizontalAnchor W H ax (max MIN_CROP_SIZE (min (ax - px) ax)) origin true ar
    | .right =>
      let ax := origin.x
      rectFromHorizontalAnchor W H ax (max MIN_CROP_SIZE (min (px - ax) (W - ax))) origin false ar
    | .top =>
      let ay := origin.y + origin.h - 1
      rectFromVerticalAnchor W H ay (max MIN_CROP_SIZE (min (ay - py) ay)) origin true ar
    | .bottom =>
      let ay := origin.y
      rectFromVerticalAnchor W H ay (max MIN_CROP_SIZE (min (py - ay) (H - ay))) origin false ar
    | h => ratioResizeCorner W H px py h origin ar
  ensureMinSize W H rect

/-- One pointer-driven mutation of the selection rectangle, as dispatched
by `OnMouseMove` while dragging: creation (with or without aspect lock),
move, or resize from a handle (with or without aspect lock).  The `ar`
fields carry the parsed positive aspect value `wr / hr`. -/
inductive Op where
  | createFree (ax ay cx cy : ℤ)
  | createLock (ax ay cx cy : ℤ) (ar : ℚ)
  | move (dx dy : ℤ)
  | resizeFree (px py : ℤ) (hnd : Handle)
  | resizeLock (px py : ℤ) (hnd : Handle) (ar : ℚ)
deriving DecidableEq

/-- The state transition of `crop_rect` for one operation: each branch is
the corresponding `_update_selection_*` path of the source, every one of
which funnels through `_ensure_min_size`.  For `move` and the resizes the
current rectangle plays the role of `original_rect` (captured at
pointer-down); points are clamped exactly where `OnMouseMove` and
`_create_rect` clamp them. -/
def step (W H : ℤ) (op : Op) (cur : IRect) : IRect :=
  match op with
  | .createFree ax ay cx cy =>
    let a := clampDisplayPoint W H (ax, ay)
    let c := clampDisplayPoint W H (cx, cy)
    ensureMinSize W H ⟨min a.1 c.1, min a.2 c.2, |c.1 - a.1|, |c.2 - a.2|⟩
  | .createLock ax ay cx cy ar =>
    let a := clampDisplayPoint W H (ax, ay)
    let c := clampDisplayPoint W H (cx, cy)
    ensureMinSize W H (ratioCreateRect W H a.1 a.2 c.1 c.2 ar)
  | .move dx dy => ensureMinSize W H ⟨cur.x + dx, cur.y + dy, cur.w, cur.h⟩
  | .resizeFree px py hnd =>
    let p := clampDisplayPoint W H (px, py)
    ensureMinSize W H (resizeFreeRect W H cur p.1 p.2 hnd)
  | .resizeLock px py hnd ar =>
    let p := clampDisplayPoint W H (px, py)
    ensureMinSize W H (ratioResizeRect W H cur p.1 p.2 hnd ar)

/-- `PreviewPanel.GetCropBox`: map the display rectangle `(x, y, w, h)` to
a source crop box for an `iw × ih` image shown at `W × H`, using floor for
the top-left corner, ceil for the bottom-right corner, and the two
clamping stages of the source. -/
def getCropBox (x y w h iw ih W H : ℤ) : ℤ × ℤ × ℤ × ℤ :=
  let sx : ℚ := (iw : ℚ) / (W : ℚ)
  let sy : ℚ := (ih : ℚ) / (H : ℚ)
  let ox1 := ⌊(x : ℚ) * sx⌋
  let oy1 := ⌊(y : ℚ) * sy⌋
  let ox2 := ⌈((x + w : ℤ) : ℚ) * sx⌉
  let oy2 := ⌈((y + h : ℤ) : ℚ) * sy⌉
  let cx1 := max 0 (min (iw - 1) ox1)
  let cy1 := max 0 (min (ih - 1) oy1)
  let cx2 := max (cx1 + 1) (min iw ox2)
  let cy2 := max (cy1 + 1) (min ih oy2)
  (cx1, cy1, cx2, cy2)

/-- True for the Windows path separators used by `ntpath.splitext`
(`sep` and `altsep`). -/
def isSepChar (c : Char) : Bool := c == '\\' || c == '/'

/-- Negation of `isSepChar`, for scanning the basename from the end. -/
def notSep (c : Char) : Bool := !(isSepChar c)

/-- True for every character other than the extension separator. -/
def notDot (c : Char) : Bool := !(c == '.')

/-- Length of the extension (including its dot) that CPython's
`genericpath._splitext` splits off, computed on the reversed path: the
basename is the separator-free suffix, the extension candidate runs back
to the last dot, and it counts only if some earlier basename character is
not a dot (the all-leading-dots rule). -/
def extLen (r : List Char) : ℕ :=
  let rname := r.takeWhile notSep
  let rext := rname.takeWhile notDot
  match rname.drop rext.length with
  | [] => 0
  | _ :: rtail => if rtail.any notDot then rext.length + 1 else 0

/-- `os.path.splitext` (ntpath flavour): split a path into
`(root, extension)` with `root ++ extension = path`. -/
def splitext (p : List Char) : List Char × List Char :=
  let r := p.reverse
  let n := extLen r
  ((r.drop n).reverse, (r.take n).reverse)

/-- The suffix appended by `add_bc_suffix`, Python string `_bc`. -/
def bcChars : List Char := ['_', 'b', 'c']

/-- Python `base.endswith("_bc")`, expressed on the reversed base. -/
def endsWithBc (b : List Char) : Bool := b.reverse.take 3 == ['c', 'b', '_']

/-- `add_bc_suffix` from the source: split off the extension, strip one
trailing `_bc` from the root if present (Python `base[:-3]`), and append
`_bc` before the extension. -/
def add_bc_suffix (p : List Char) : List Char :=
  let be := splitext p
  let base := if endsWithBc be.1 then be.1.take (be.1.length - 3) else be.1
  base ++ bcChars ++ be.2

/-- The lowercased extension of a path, Python
`os.path.splitext(p)[1].lower()`. -/
def extLower (p : List Char) : List Char := ((splitext p).2).map Char.toLower

/-- The extension whitelist of `MainFrame.AddFiles`:
`('.jpg', '.jpeg', '.png', '.bmp', '.tiff', '.tif')`. -/
def ALLOWED_EXTS : List (List Char) :=
  [['.', 'j', 'p', 'g'], ['.', 'j', 'p', 'e', 'g'], ['.', 'p', 'n', 'g'],
   ['.', 'b', 'm', 'p'], ['.', 't', 'i', 'f', 'f'], ['.', 't', 'i', 'f']]

/-- The Python string `.png`, the only extension `OnPngReduce` accepts. -/
def pngExt : List Char := ['.', 'p', 'n', 'g']

/-- One history snapshot pushed by `MainFrame.PushHistory`: deep copies of
`file_paths`, `images` and `reduced_flags` (`img.copy()` is the identity
on the abstract image value). -/
structure Snapshot (Img : Type) where
  paths : List (List Char)
  images : List Img
  flags : List Bool
deriving DecidableEq

/-- The mutable session state of `MainFrame` that the claims are about. -/
structure AppState (Img : Type) where
  file_paths : List (List Char)
  images : List Img
  reduced_flags : List Bool
  history : List (Snapshot Img)
  selected_index : ℤ
deriving DecidableEq

/-- The snapshot `PushHistory` records of the current state. -/
def snapOf {Img : Type} (st : AppState Img) : Snapshot Img :=
  ⟨st.file_paths, st.images, st.reduced_flags⟩

/-- The list transition of `MainFrame.PushHistory`: append the snapshot,
then `pop(0)` once if the length exceeds `MAX_HISTORY`. -/
def pushHistoryList {Img : Type} (h : List (Snapshot Img)) (s : Snapshot Img) :
    List (Snapshot Img) :=
  let h2 := h ++ [s]
  if MAX_HISTORY < h2.length then h2.drop 1 else h2

/-- `MainFrame.PushHistory` as a state transition. -/
def pushHistory {Img : Type} (st : AppState Img) : AppState Img :=
  { st with history := pushHistoryList st.history (snapOf st) }

/-- `ControlPanel.GetValidatedBox`: the four coordinate fields, given as
the results of Python `int(...)` (`none` models a raised `ValueError`);
rejects the box unless `xe > xs` and `ye > ys`. -/
def getValidatedBox (xs ys xe ye : Option ℤ) : Option (ℤ × ℤ × ℤ × ℤ) :=
  match xs, ys, xe, ye with
  | some a, some b, some c, some d => if c ≤ a ∨ d ≤ b then none else some (a, b, c, d)
  | _, _, _, _ => none

/-- The per-document loop body of `OnTrimAll` over `zip(file_paths,
images)`.  `persistReload p img` stands for crop + save to `p` + reopen:
`some` is the reloaded image, `none` a caught per-document exception; a
failing document contributes nothing, a succeeding one appends its output
path, reloaded image and carried-over reduced flag. -/
def trimLoop {Img : Type} (persistReload : List Char → Img → Option Img)
    (flagOf : List Char → Bool) :
    List (List Char × Img) → List (List Char) × List Img × List Bool
  | [] => ([], [], [])
  | pi :: rest =>
    let tail := trimLoop persistReload flagOf rest
    match persistReload (add_bc_suffix pi.1) pi.2 with
    | some img2 => (add_bc_suffix pi.1 :: tail.1, img2 :: tail.2.1, flagOf pi.1 :: tail.2.2)
    | none => tail

/-- `MainFrame.OnTrimAll`: validate the coordinate fields, crop every
loaded document independently, and only if at least one new image was
produced replace the document lists wholesale, push a history snapshot and
repair `selected_index`.  `persistReload box p img` is the external
crop/encode/save/reload collaborator for one document. -/
def onTrimAll {Img : Type} (persistReload : ℤ × ℤ × ℤ × ℤ → List Char → Img → Option Img)
    (xs ys xe ye : Option ℤ) (st : AppState Img) : AppState Img :=
  match getValidatedBox xs ys xe ye with
  | none => st
  | some box =>
    let res := trimLoop (persistReload box)
      (fun p => st.reduced_flags.getD (st.file_paths.indexOf p) false)
      (st.file_paths.zip st.images)
    if res.2.1.isEmpty then st
    else
      let st2 := pushHistory
        { st with file_paths := res.1, images := res.2.1, reduced_flags := res.2.2 }
      { st2 with selected_index :=
          if 0 ≤ st.selected_index ∧ st.selected_index < (res.2.1.length : ℤ) then
            st.selected_index else 0 }

/-- `MainFrame.OnRevertAll`: with fewer than two snapshots do nothing
(the Python method returns `None`, which is falsy); otherwise pop the
most recent snapshot, restore the new top snapshot's paths, images and
flags, and repair `selected_index`.  The on-disk cleanup of `_bc` files is
an external file-system effect outside the session state. -/
def onRevertAll {Img : Type} (st : AppState Img) : AppState Img :=
  if st.history.length < 2 then st
  else
    match (st.history.dropLast).getLast? with
    | none => st
    | some prev =>
      { st with history := st.history.dropLast,
                file_paths := prev.paths,
                images := prev.images,
                reduced_flags := prev.flags,
                selected_index :=
                  if 0 ≤ st.selected_index ∧ st.selected_index < (prev.images.length : ℤ) then
                    st.selected_index else 0 }

/-- The per-path loop of `MainFrame.AddFiles`: a path is appended (with
its opened image and a cleared reduced flag) only if its lowercased
extension is allowed, it is not already present, and `Image.open`
succeeds (`openImg p = none` models the caught load exception). -/
def addFilesLoop {Img : Type} (openImg : List Char → Option Img) :
    List (List Char) → AppState Img → AppState Img
  | [], st => st
  | p :: rest, st =>
    let st2 :=
      if extLower p ∈ ALLOWED_EXTS ∧ p ∉ st.file_paths then
        match openImg p with
        | some img =>
          { st with file_paths := st.file_paths ++ [p], images := st.images ++ [img],
                    reduced_flags := st.reduced_flags ++ [false] }
        | none => st
      else st
    addFilesLoop openImg rest st2

/-- `MainFrame.AddFiles`: run the loop, then if any images are loaded
clear the history, push a fresh base snapshot and select index 0. -/
def addFiles {Img : Type} (openImg : List Char → Option Img) (paths : List (List Char))
    (st : AppState Img) : AppState Img :=
  let st2 := addFilesLoop openImg paths st
  if st2.images.isEmpty then st2
  else { (pushHistory { st2 with history := [] }) with selected_index := 0 }

/-- The per-document loop of `OnPngReduce`; `persistReload` plays the same
role as in `trimLoop` (quantize + save + reopen), and a succeeding
document gets its reduced flag set to `true`. -/
def pngLoop {Img : Type} (persistReload : List Char → Img → Option Img) :
    List (List Char × Img) → List (List Char) × List Img × List Bool
  | [] => ([], [], [])
  | pi :: rest =>
    let tail := pngLoop persistReload rest
    match persistReload (add_bc_suffix pi.1) pi.2 with
    | some img2 => (add_bc_suffix pi.1 :: tail.1, img2 :: tail.2.1, true :: tail.2.2)
    | none => tail

/-- `MainFrame.OnPngReduce`: message-and-return (state untouched) when no
files are loaded or when any loaded path is not a `.png`; otherwise
process every document, and only if some path was produced replace the
lists, push a history snapshot and repair `selected_index`. -/
def onPngReduce {Img : Type} (persistReload : List Char → Img → Option Img)
    (st : AppState Img) : AppState Img :=
  if st.file_paths.isEmpty then st
  else if !(st.file_paths.filter (fun p => !(extLower p == pngExt))).isEmpty then st
  else
    let res := pngLoop persistReload (st.file_paths.zip st.images)
    if res.1.isEmpty then st
    else
      let st2 := pushHistory
        { st with file_paths := res.1, images := res.2.1, reduced_flags := res.2.2 }
      { st2 with selected_index :=
          if 0 ≤ st.selected_index ∧ st.selected_index < (res.2.1.length : ℤ) then
            st.selected_index else 0 }

/-- Concrete example state used by the witness theorems: two JPEG
documents (images abstracted as naturals) and two history snapshots. -/
def exState : AppState ℕ :=
  { file_paths := [['a', '.', 'j', 'p', 'g'], ['b', '.', 'j', 'p', 'g']],
    images := [7, 8],
    reduced_flags := [false, false],
    history := [⟨[['a', '.', 'j', 'p', 'g']], [7], [false]⟩,
                ⟨[['a', '.', 'j', 'p', 'g'], ['b', '.', 'j', 'p', 'g']], [7, 8], [false, false]⟩],
    selected_index := 0 }

/-- Concrete single-snapshot state: reverting here must be a no-op. -/
def exStateOne : AppState ℕ :=
  { file_paths := [['a', '.', 'j', 'p', 'g']],
    images := [7],
    reduced_flags := [false],
    history := [⟨[['a', '.', 'j', 'p', 'g']], [7], [false]⟩],
    selected_index := 0 }

/-- Concrete state whose second loaded path is not a PNG. -/
def exStateMixed : AppState ℕ :=
  { file_paths := [['a', '.', 'p', 'n', 'g'], ['b', '.', 'j', 'p', 'g']],
    images := [7, 8],
    reduced_flags := [false, false],
    history := [],
    selected_index := 0 }

theorem pyRound_abs (q : ℚ) : |(pyRound q : ℚ) - q| ≤ 1/2 := by
  have h0 : (⌊q⌋ : ℚ) ≤ q := Int.floor_le q
  have h1 : q < ⌊q⌋ + 1 := Int.lt_floor_add_one q
  rw [abs_sub_le_iff]
  simp only [pyRound]
  split_ifs <;> push_cast <;> constructor <;> linarith

theorem pyRound_nonneg (q : ℚ) (h : 0 ≤ q) : 0 ≤ pyRound q := by
  have h0 : (0:ℤ) ≤ ⌊q⌋ := Int.floor_nonneg.mpr h
  simp only [pyRound]
  split_ifs <;> omega

theorem ensureWithin_inv (W H : ℤ) (r : IRect) (hW : MIN_CROP_SIZE ≤ W)
    (hH : MIN_CROP_SIZE ≤ H) : InvariantRect W H (ensureWithinDisplay W H r) := by
  simp only [ensureWithinDisplay, InvariantRect, MIN_CROP_SIZE] at *
  split_ifs <;> dsimp only <;> omega

theorem ensureWithin_size (W H x y w h : ℤ) (h1 : MIN_CROP_SIZE ≤ w) (h2 : w ≤ W)
    (h3 : MIN_CROP_SIZE ≤ h) (h4 : h ≤ H) :
    (ensureWithinDisplay W H ⟨x, y, w, h⟩).w = w ∧ (ensureWithinDisplay W H ⟨x, y, w, h⟩).h = h := by
  simp only [ensureWithinDisplay, MIN_CROP_SIZE] at *
  split_ifs <;> dsimp only <;> omega

theorem ensureWithin_fix (W H : ℤ) (r : IRect) (hr : InvariantRect W H r) :
    ensureWithinDisplay W H r = r := by
  obtain ⟨x, y, w, h⟩ := r
  simp only [ensureWithinDisplay, InvariantRect, MIN_CROP_SIZE] at *
  split_ifs <;> simp only [IRect.mk.injEq] <;> omega

theorem ensureMinSize_inv (W H : ℤ) (r : IRect) (hW : MIN_CROP_SIZE ≤ W)
    (hH : MIN_CROP_SIZE ≤ H) : InvariantRect W H (ensureMinSize W H r) := by
  simp only [ensureMinSize]
  exact ensureWithin_inv W H _ hW hH

theorem ensureMinSize_fix (W H : ℤ) (r : IRect) (hr : InvariantRect W H r) :
    ensureMinSize W H r = r := by
  have h4w : ¬ r.w < MIN_CROP_SIZE := not_lt.mpr hr.1
  have h4h : ¬ r.h < MIN_CROP_SIZE := not_lt.mpr hr.2.1
  simp only [ensureMinSize, ensureWithin_fix W H r hr, if_neg h4w, if_neg h4h]

theorem ensureMinSize_size (W H x y w h : ℤ) (h1 : MIN_CROP_SIZE ≤ w) (h2 : w ≤ W)
    (h3 : MIN_CROP_SIZE ≤ h) (h4 : h ≤ H) :
    (ensureMinSize W H ⟨x, y, w, h⟩).w = w ∧ (ensureMinSize W H ⟨x, y, w, h⟩).h = h := by
  obtain ⟨ew, eh⟩ := ensureWithin_size W H x y w h h1 h2 h3 h4
  simp only [ensureMinSize, ew, eh, if_neg (not_lt.mpr h1), if_neg (not_lt.mpr h3)]
  exact ensureWithin_size W H _ _ w h h1 h2 h3 h4

theorem step_inv (W H : ℤ) (op : Op) (cur : IRect) (hW : MIN_CROP_SIZE ≤ W)
    (hH : MIN_CROP_SIZE ≤ H) : InvariantRect W H (step W H op cur) := by
  cases op <;> exact ensureMinSize_inv W H _ hW hH

theorem foldl_step_inv (W H : ℤ) (hW : MIN_CROP_SIZE ≤ W) (hH : MIN_CROP_SIZE ≤ H)
    (ops : List Op) (r0 : IRect) (hne : ops ≠ []) :
    InvariantRect W H (ops.foldl (fun r op => step W H op r) r0) := by
  induction ops generalizing r0 with
  | nil => exact absurd rfl hne
  | cons op rest ih =>
    cases rest with
    | nil => exact step_inv W H op r0 hW hH
    | cons op2 rest2 => exact ih (step W H op r0) (by simp)

theorem ratioDeltas_spec (adx0 ady0 : ℤ) (ar : ℚ) (h1 : 0 ≤ adx0) (h2 : 0 ≤ ady0)
    (har : 0 < ar) :
    0 ≤ (ratioDeltas adx0 ady0 ar).1 ∧ 0 ≤ (ratioDeltas adx0 ady0 ar).2 ∧
    ((ratioDeltas adx0 ady0 ar).1 = pyRound (((ratioDeltas adx0 ady0 ar).2 : ℚ) * ar) ∨
     (ratioDeltas adx0 ady0 ar).2 = pyRound (((ratioDeltas adx0 ady0 ar).1 : ℚ) / ar)) := by
  have hdiv : ∀ z : ℤ, 0 ≤ z → 0 ≤ pyRound ((z : ℚ) / ar) := fun z hz =>
    pyRound_nonneg _ (div_nonneg (by exact_mod_cast hz) har.le)
  have hmul : ∀ z : ℤ, 0 ≤ z → 0 ≤ pyRound ((z : ℚ) * ar) := fun z hz =>
    pyRound_nonneg _ (mul_nonneg (by exact_mod_cast hz) har.le)
  simp only [ratioDeltas]
  set y1 := (if ady0 = 0 then pyRound ((adx0 : ℚ) / ar) else ady0) with hy1
  set x1 := (if adx0 = 0 then pyRound ((y1 : ℚ) * ar) else adx0) with hx1
  have hy1n : 0 ≤ y1 := by
    rw [hy1]
    split_ifs
    · exact hdiv _ h1
    · exact h2
  have hx1n : 0 ≤ x1 := by
    rw [hx1]
    split_ifs
    · exact hmul _ hy1n
    · exact h1
  clear_value x1 y1
  split_ifs
  all_goals first
    | exact ⟨hmul _ hy1n, hy1n, Or.inl rfl⟩
    | exact ⟨hx1n, hdiv _ hx1n, Or.inr rfl⟩

theorem ratioCreateCore_spec (ax ay cx cy : ℤ) (ar : ℚ) (har : 0 < ar) :
    (ratioCreateCore ax ay cx cy ar).w = pyRound (((ratioCreateCore ax ay cx cy ar).h : ℚ) * ar) ∨
    (ratioCreateCore ax ay cx cy ar).h = pyRound (((ratioCreateCore ax ay cx cy ar).w : ℚ) / ar) := by
  obtain ⟨hd1, hd2, hd3⟩ :=
    ratioDeltas_spec |cx - ax| |cy - ay| ar (abs_nonneg _) (abs_nonneg _) har
  have ew : (ratioCreateCore ax ay cx cy ar).w = (ratioDeltas |cx - ax| |cy - ay| ar).1 := by
    simp only [ratioCreateCore, add_sub_cancel_left]
    split_ifs
    · exact abs_of_nonneg hd1
    · rw [abs_neg]
      exact abs_of_nonneg hd1
  have eh : (ratioCreateCore ax ay cx cy ar).h = (ratioDeltas |cx - ax| |cy - ay| ar).2 := by
    simp only [ratioCreateCore, add_sub_cancel_left]
    split_ifs
    · exact abs_of_nonneg hd2
    · rw [abs_neg]
      exact abs_of_nonneg hd2
  rw [ew, eh]
  exact hd3

theorem roundRatioTolerance (w h : ℤ) (ar : ℚ) (har : 0 < ar) (hpos : 0 < h) (h25 : 25 < h)
    (h25r : 25 * ar < (h : ℚ))
    (hd : w = pyRound ((h : ℚ) * ar) ∨ h = pyRound ((w : ℚ) / ar)) :
    |(w : ℚ) / (h : ℚ) - ar| < 1/50 := by
  have hq : (0 : ℚ) < (h : ℚ) := by exact_mod_cast hpos
  have hq25 : (25 : ℚ) < (h : ℚ) := by exact_mod_cast h25
  have key : |(w : ℚ) / (h : ℚ) - ar| = |(w : ℚ) - (h : ℚ) * ar| / (h : ℚ) := by
    rw [show (w : ℚ) / (h : ℚ) - ar = ((w : ℚ) - (h : ℚ) * ar) / (h : ℚ) by field_simp]
    rw [abs_div, abs_of_pos hq]
  rw [key, div_lt_iff₀ hq]
  rcases hd with hd | hd
  · have hb := pyRound_abs ((h : ℚ) * ar)
    rw [← hd] at hb
    calc |(w : ℚ) - (h : ℚ) * ar| ≤ 1/2 := hb
    _ < 1/50 * (h : ℚ) := by linarith
  · have hb := pyRound_abs ((w : ℚ) / ar)
    rw [← hd] at hb
    have hmul : ((h : ℚ) - (w : ℚ) / ar) * ar = (h : ℚ) * ar - (w : ℚ) := by
      field_simp
    have hb2 : |(h : ℚ) * ar - (w : ℚ)| ≤ ar / 2 := by
      rw [← hmul, abs_mul, abs_of_pos har]
      calc |(h : ℚ) - (w : ℚ) / ar| * ar ≤ 1/2 * ar :=
            mul_le_mul_of_nonneg_right hb (le_of_lt har)
      _ = ar / 2 := by ring
    rw [abs_sub_comm] at hb2
    calc |(w : ℚ) - (h : ℚ) * ar| ≤ ar / 2 := hb2
    _ < 1/50 * (h : ℚ) := by linarith

theorem cropClampBounds (iw ih a b c d : ℤ) (hiw : 0 < iw) (hih : 0 < ih) :
    0 ≤ max 0 (min (iw - 1) a) ∧
    max 0 (min (iw - 1) a) ≤ iw - 1 ∧
    max 0 (min (iw - 1) a) < max (max 0 (min (iw - 1) a) + 1) (min iw c) ∧
    max (max 0 (min (iw - 1) a) + 1) (min iw c) ≤ iw ∧
    0 ≤ max 0 (min (ih - 1) b) ∧
    max 0 (min (ih - 1) b) ≤ ih - 1 ∧
    max 0 (min (ih - 1) b) < max (max 0 (min (ih - 1) b) + 1) (min ih d) ∧
    max (max 0 (min (ih - 1) b) + 1) (min ih d) ≤ ih := by
  omega

/-- Claim C1 (corrected): the claim as stated takes the display as merely
non-degenerate (positive); with `displayW = displayH = 2` a single move
operation yields the rectangle `(0, 0, 4, 4)`, whose right edge lies
outside the display, so the containment part of the invariant fails. -/
theorem c1_counterexample :
    ((0:ℤ) < 2 ∧ (0:ℤ) < 2) ∧
    ¬ InvariantRect 2 2 (([Op.move 1 1]).foldl (fun r op => step 2 2 op r) ⟨0, 0, 2, 2⟩) := by
  exact ⟨⟨by decide, by decide⟩, by decide⟩

/-- Claim C1 (amended): for every nonempty sequence of create, move and
resize operations performed while an image is loaded and the display area
measures at least `MIN_CROP_SIZE` in both dimensions, the resulting
`crop_rect` satisfies `w ≥ 4`, `h ≥ 4` and lies within
`[0, displayW] × [0, displayH]`. -/
theorem c1_selection_invariant (W H : ℤ) (hW : MIN_CROP_SIZE ≤ W) (hH : MIN_CROP_SIZE ≤ H)
    (ops : List Op) (r0 : IRect) (hne : ops ≠ []) :
    InvariantRect W H (ops.foldl (fun r op => step W H op r) r0) :=
  foldl_step_inv W H hW hH ops r0 hne

/-- Witness for the amended claim C1 at a concrete display, operation
sequence and starting rectangle. -/
theorem c1_selection_invariant_witness :
    InvariantRect 100 100
      (([Op.createFree 0 0 30 30, Op.move 95 0, Op.resizeFree 50 50 Handle.bottom_right]).foldl
        (fun r op => step 100 100 op r) ⟨0, 0, 0, 0⟩) :=
  c1_selection_invariant 100 100 (by decide) (by decide) _ _ (by decide)

/-- Claim C2: for every display rectangle (zero-area included) and every
image with positive dimensions shown at positive display dimensions,
`GetCropBox` returns `(x1, y1, x2, y2)` with the start corner clamped into
`[0, sourceW-1] × [0, sourceH-1]` and the end corner into
`[x1+1, sourceW] × [y1+1, sourceH]`; in particular `x2 > x1`, `y2 > y1`
and the box lies within the source image bounds. -/
theorem c2_crop_box_bounds (x y w h iw ih W H : ℤ) (hiw : 0 < iw) (hih : 0 < ih)
    (hW : 0 < W) (hH : 0 < H) :
    0 ≤ (getCropBox x y w h iw ih W H).1 ∧
    (getCropBox x y w h iw ih W H).1 ≤ iw - 1 ∧
    (getCropBox x y w h iw ih W H).1 < (getCropBox x y w h iw ih W H).2.2.1 ∧
    (getCropBox x y w h iw ih W H).2.2.1 ≤ iw ∧
    0 ≤ (getCropBox x y w h iw ih W H).2.1 ∧
    (getCropBox x y w h iw ih W H).2.1 ≤ ih - 1 ∧
    (getCropBox x y w h iw ih W H).2.1 < (getCropBox x y w h iw ih W H).2.2.2 ∧
    (getCropBox x y w h iw ih W H).2.2.2 ≤ ih := by
  simp only [getCropBox]
  exact cropClampBounds iw ih _ _ _ _ hiw hih

/-- Witness for claim C2: the spec scenario (a zero-area display
rectangle over a 1600 × 1200 image shown at 800 × 600). -/
theorem c2_crop_box_bounds_witness :
    0 ≤ (getCropBox 100 100 0 0 1600 1200 800 600).1 ∧
    (getCropBox 100 100 0 0 1600 1200 800 600).1 ≤ 1600 - 1 ∧
    (getCropBox 100 100 0 0 1600 1200 800 600).1 <
      (getCropBox 100 100 0 0 1600 1200 800 600).2.2.1 ∧
    (getCropBox 100 100 0 0 1600 1200 800 600).2.2.1 ≤ 1600 ∧
    0 ≤ (getCropBox 100 100 0 0 1600 1200 800 600).2.1 ∧
    (getCropBox 100 100 0 0 1600 1200 800 600).2.1 ≤ 1200 - 1 ∧
    (getCropBox 100 100 0 0 1600 1200 800 600).2.1 <
      (getCropBox 100 100 0 0 1600 1200 800 600).2.2.2 ∧
    (getCropBox 100 100 0 0 1600 1200 800 600).2.2.2 ≤ 1200 :=
  c2_crop_box_bounds 100 100 0 0 1600 1200 800 600 (by decide) (by decide) (by decide) (by decide)

/-- Claim C3 (corrected): with aspect lock 16:9, creating a selection by
dragging from (0,0) to (4,10) on a roomy 100 × 100 display produces the
4 × 4 rectangle (integer rounding gives a 4 × 2 raw rectangle, then the
minimum-size enforcement bumps the height), so `|w/h - r|` is `7/9`, far
above the claimed `0.02` tolerance. -/
theorem c3_counterexample :
    ¬ |((step 100 100 (Op.createLock 0 0 4 10 (16/9)) ⟨0, 0, 0, 0⟩).w : ℚ) /
        ((step 100 100 (Op.createLock 0 0 4 10 (16/9)) ⟨0, 0, 0, 0⟩).h : ℚ) - 16/9| < 1/50 := by
  have hfl : ⌊(4 / (16/9) : ℚ)⌋ = 2 := by norm_num
  have hcore : ratioCreateCore 0 0 4 10 (16/9) = ⟨0, 0, 4, 2⟩ := by
    norm_num [ratioCreateCore, ratioDeltas, pyRound, hfl]
  have hrr : ratioCreateRect 100 100 0 0 4 10 (16/9) = ensureWithinDisplay 100 100 ⟨0, 0, 4, 2⟩ := by
    rw [ratioCreateRect, if_neg (by decide), hcore]
  have hclampA : clampDisplayPoint 100 100 (0, 0) = (0, 0) := by decide
  have hclampC : clampDisplayPoint 100 100 (4, 10) = (4, 10) := by decide
  have hstep : step 100 100 (Op.createLock 0 0 4 10 (16/9)) ⟨0, 0, 0, 0⟩ = ⟨0, 0, 4, 4⟩ := by
    simp only [step, hclampA, hclampC]
    rw [hrr]
    decide
  rw [hstep]
  rw [show (((IRect.mk 0 0 4 4).w : ℚ) / ((IRect.mk 0 0 4 4).h : ℚ) - 16/9 : ℚ) = -(7/9) by
    norm_num]
  rw [abs_neg, abs_of_nonneg (by norm_num : (0:ℚ) ≤ (7/9 : ℚ))]
  norm_num

/-- Claim C3 (amended): with aspect lock at a positive value `ar`, a
create operation whose drag points lie in the display and whose raw
ratio-locked rectangle is untouched by the min-size/bounds normalizer
always has one dimension equal to the rounding of the other scaled by
`ar`; consequently `|w/h - ar| < 0.02` whenever the rectangle's height
exceeds both 25 and 25·ar.  For small or clamped rectangles (and for the
resize and rescale families, which in addition rescale the axes
independently) the 0.02 bound fails, as the counterexample shows. -/
theorem c3_create_lock_tolerance (W H ax ay cx cy : ℤ) (ar : ℚ) (har : 0 < ar)
    (hax : 0 ≤ ax) (haxW : ax ≤ W) (hay : 0 ≤ ay) (hayH : ay ≤ H)
    (hcx : 0 ≤ cx) (hcxW : cx ≤ W) (hcy : 0 ≤ cy) (hcyH : cy ≤ H)
    (hnz : ¬(cx - ax = 0 ∧ cy - ay = 0))
    (hinv : InvariantRect W H (ratioCreateCore ax ay cx cy ar))
    (h25 : 25 < (ratioCreateCore ax ay cx cy ar).h)
    (h25r : 25 * ar < ((ratioCreateCore ax ay cx cy ar).h : ℚ)) (r0 : IRect) :
    |((step W H (Op.createLock ax ay cx cy ar) r0).w : ℚ) /
      ((step W H (Op.createLock ax ay cx cy ar) r0).h : ℚ) - ar| < 1/50 := by
  have hclampA : clampDisplayPoint W H (ax, ay) = (ax, ay) := by
    simp only [clampDisplayPoint, Prod.mk.injEq]
    omega
  have hclampC : clampDisplayPoint W H (cx, cy) = (cx, cy) := by
    simp only [clampDisplayPoint, Prod.mk.injEq]
    omega
  have hres : step W H (Op.createLock ax ay cx cy ar) r0 = ratioCreateCore ax ay cx cy ar := by
    simp only [step, hclampA, hclampC]
    rw [ratioCreateRect, if_neg hnz, ensureWithin_fix W H _ hinv, ensureMinSize_fix W H _ hinv]
  rw [hres]
  exact roundRatioTolerance _ _ ar har (by have := hinv.2.1; simp only [MIN_CROP_SIZE] at this; omega)
    h25 h25r (ratioCreateCore_spec ax ay cx cy ar har)

/-- Witness for the amended claim C3: aspect lock 1:1, drag from (0,0)
to (100,100) on a 1000 × 1000 display. -/
theorem c3_create_lock_tolerance_witness :
    |((step 1000 1000 (Op.createLock 0 0 100 100 1) ⟨0, 0, 0, 0⟩).w : ℚ) /
      ((step 1000 1000 (Op.createLock 0 0 100 100 1) ⟨0, 0, 0, 0⟩).h : ℚ) - 1| < 1/50 := by
  have hcore : ratioCreateCore 0 0 100 100 1 = ⟨0, 0, 100, 100⟩ := by
    norm_num [ratioCreateCore, ratioDeltas, pyRound]
  exact c3_create_lock_tolerance 1000 1000 0 0 100 100 1 (by norm_num) (by decide) (by decide)
    (by decide) (by decide) (by decide) (by decide) (by decide) (by decide) (by decide)
    (by rw [hcore]; decide) (by rw [hcore]; decide) (by rw [hcore]; norm_num) ⟨0, 0, 0, 0⟩

/-- Claim C7: a move of a rectangle that already satisfies the invariant
translates it and slides it back inside the display, but never changes
its width or height. -/
theorem c7_move_preserves_size (W H : ℤ) (r : IRect) (dx dy : ℤ)
    (hr : InvariantRect W H r) :
    (step W H (Op.move dx dy) r).w = r.w ∧ (step W H (Op.move dx dy) r).h = r.h := by
  obtain ⟨h1, h2, h3, h4, h5, h6⟩ := hr
  simp only [step]
  exact ensureMinSize_size W H (r.x + dx) (r.y + dy) r.w r.h h1 (by omega) h2 (by omega)

/-- Witness for claim C7: a move that pushes the rectangle far out of
bounds still leaves it 20 × 20. -/
theorem c7_move_preserves_size_witness :
    (step 100 100 (Op.move 95 0) ⟨10, 10, 20, 20⟩).w = 20 ∧
    (step 100 100 (Op.move 95 0) ⟨10, 10, 20, 20⟩).h = 20 :=
  c7_move_preserves_size 100 100 ⟨10, 10, 20, 20⟩ 95 0 (by decide)

theorem pushHistoryList_le {Img : Type} (h : List (Snapshot Img)) (s : Snapshot Img)
    (hle : h.length ≤ MAX_HISTORY) : (pushHistoryList h s).length ≤ MAX_HISTORY := by
  simp only [pushHistoryList, MAX_HISTORY] at *
  split_ifs with hc <;>
    simp only [List.length_drop, List.length_append, List.length_singleton] at * <;> omega

theorem foldl_pushHistoryList_le {Img : Type} (l : List (Snapshot Img)) :
    (l.foldl pushHistoryList []).length ≤ MAX_HISTORY := by
  suffices haux : ∀ h : List (Snapshot Img), h.length ≤ MAX_HISTORY →
      (l.foldl pushHistoryList h).length ≤ MAX_HISTORY by
    exact haux [] (by simp [MAX_HISTORY])
  induction l with
  | nil =>
    intro h hh
    simpa using hh
  | cons s rest ih =>
    intro h hh
    exact ih _ (pushHistoryList_le h s hh)

/-- Claim C5: any sequence of `PushHistory` pushes starting from the empty
history leaves at most `MAX_HISTORY` (= 10) snapshots, and pushing
`MAX_HISTORY + 1` snapshots leaves exactly the last `MAX_HISTORY` of them:
the oldest one is evicted first. -/
theorem c5_history_bound_fifo :
    (∀ (Img : Type) (l : List (Snapshot Img)),
      (l.foldl pushHistoryList []).length ≤ MAX_HISTORY) ∧
    (∀ (Img : Type) (s0 s1 s2 s3 s4 s5 s6 s7 s8 s9 s10 : Snapshot Img),
      ([s0, s1, s2, s3, s4, s5, s6, s7, s8, s9, s10]).foldl pushHistoryList [] =
        [s1, s2, s3, s4, s5, s6, s7, s8, s9, s10]) := by
  constructor
  · intro Img l
    exact foldl_pushHistoryList_le l
  · intro Img s0 s1 s2 s3 s4 s5 s6 s7 s8 s9 s10
    simp [pushHistoryList, MAX_HISTORY]

/-- Claim C6: `OnRevertAll` is a no-op with fewer than two snapshots (the
Python method returns `None`, which is falsy, on this path); with at least
two it discards the most recent snapshot and restores the new top
snapshot's paths, images and flags as the session state. -/
theorem c6_revert_behavior {Img : Type} (st : AppState Img) :
    (st.history.length < 2 → onRevertAll st = st) ∧
    (∀ prev : Snapshot Img, 2 ≤ st.history.length →
      st.history.dropLast.getLast? = some prev →
      (onRevertAll st).history = st.history.dropLast ∧
      (onRevertAll st).file_paths = prev.paths ∧
      (onRevertAll st).images = prev.images ∧
      (onRevertAll st).reduced_flags = prev.flags) := by
  constructor
  · intro hlt
    simp only [onRevertAll, if_pos hlt]
  · intro prev hge hlast
    simp only [onRevertAll, if_neg (by omega : ¬ st.history.length < 2), hlast]
    refine ⟨?_, ?_, ?_, ?_⟩ <;> trivial

/-- Witness for claim C6: a no-op revert on a single-snapshot state and a
real revert on a two-snapshot state. -/
theorem c6_revert_behavior_witness :
    onRevertAll exStateOne = exStateOne ∧
    (onRevertAll exState).history = exState.history.dropLast ∧
    (onRevertAll exState).file_paths = [['a', '.', 'j', 'p', 'g']] ∧
    (onRevertAll exState).images = [7] ∧
    (onRevertAll exState).reduced_flags = [false] :=
  ⟨(c6_revert_behavior exStateOne).1 (by decide),
   (c6_revert_behavior exState).2 ⟨[['a', '.', 'j', 'p', 'g']], [7], [false]⟩
     (by decide) (by decide)⟩

theorem trimLoop_eq {Img : Type} (f : List Char → Img → Option Img)
    (flagOf : List Char → Bool) (l : List (List Char × Img)) :
    trimLoop f flagOf l =
      (l.filterMap (fun pi => (f (add_bc_suffix pi.1) pi.2).map (fun _ => add_bc_suffix pi.1)),
       l.filterMap (fun pi => f (add_bc_suffix pi.1) pi.2),
       l.filterMap (fun pi => (f (add_bc_suffix pi.1) pi.2).map (fun _ => flagOf pi.1))) := by
  induction l with
  | nil => rfl
  | cons pi rest ih =>
    cases hm : f (add_bc_suffix pi.1) pi.2 <;>
      simp [trimLoop, ih, hm, List.filterMap_cons]

/-- Claim C4: `OnTrimAll` fails fast (no state mutation at all) when the
coordinate input does not parse or when `xe ≤ xs` or `ye ≤ ys`; with a
valid box every document is processed independently, a document whose
persistence fails is skipped while the rest survive (the surviving lists
are exactly the filter of the successful documents); and when no document
succeeds, the whole session state - paths, images, flags and history -
is left unchanged. -/
theorem c4_trim_validation_isolation {Img : Type}
    (persistReload : ℤ × ℤ × ℤ × ℤ → List Char → Img → Option Img)
    (xs ys xe ye : Option ℤ) (st : AppState Img) :
    (getValidatedBox xs ys xe ye = none → onTrimAll persistReload xs ys xe ye st = st) ∧
    (∀ a b c d : ℤ, c ≤ a ∨ d ≤ b →
      onTrimAll persistReload (some a) (some b) (some c) (some d) st = st) ∧
    (∀ box, getValidatedBox xs ys xe ye = some box →
      ((∀ pi ∈ st.file_paths.zip st.images, persistReload box (add_bc_suffix pi.1) pi.2 = none) →
        onTrimAll persistReload xs ys xe ye st = st) ∧
      ((st.file_paths.zip st.images).filterMap
          (fun pi => persistReload box (add_bc_suffix pi.1) pi.2) ≠ [] →
        (onTrimAll persistReload xs ys xe ye st).file_paths =
          (st.file_paths.zip st.images).filterMap
            (fun pi => (persistReload box (add_bc_suffix pi.1) pi.2).map
              (fun _ => add_bc_suffix pi.1)) ∧
        (onTrimAll persistReload xs ys xe ye st).images =
          (st.file_paths.zip st.images).filterMap
            (fun pi => persistReload box (add_bc_suffix pi.1) pi.2) ∧
        (onTrimAll persistReload xs ys xe ye st).reduced_flags =
          (st.file_paths.zip st.images).filterMap
            (fun pi => (persistReload box (add_bc_suffix pi.1) pi.2).map
              (fun _ => st.reduced_flags.getD (st.file_paths.indexOf pi.1) false)) ∧
        (onTrimAll persistReload xs ys xe ye st).history =
          pushHistoryList st.history
            ⟨(st.file_paths.zip st.images).filterMap
                (fun pi => (persistReload box (add_bc_suffix pi.1) pi.2).map
                  (fun _ => add_bc_suffix pi.1)),
             (st.file_paths.zip st.images).filterMap
                (fun pi => persistReload box (add_bc_suffix pi.1) pi.2),
             (st.file_paths.zip st.images).filterMap
                (fun pi => (persistReload box (add_bc_suffix pi.1) pi.2).map
                  (fun _ => st.reduced_flags.getD (st.file_paths.indexOf pi.1) false))⟩)) := by
  refine ⟨?_, ?_, ?_⟩
  · intro h
    simp only [onTrimAll, h]
  · intro a b c d h
    have hv : getValidatedBox (some a) (some b) (some c) (some d) = none := by
      simp only [getValidatedBox, if_pos h]
    simp only [onTrimAll, hv]
  · intro box hbox
    constructor
    · intro hall
      have hempty : ((st.file_paths.zip st.images).filterMap
          (fun pi => persistReload box (add_bc_suffix pi.1) pi.2)).isEmpty = true :=
        List.isEmpty_iff.mpr (List.filterMap_eq_nil_iff.mpr hall)
      simp only [onTrimAll, hbox, trimLoop_eq, hempty, if_true]
    · intro hne
      have hnotempty : ¬ (((st.file_paths.zip st.images).filterMap
          (fun pi => persistReload box (add_bc_suffix pi.1) pi.2)).isEmpty = true) := by
        intro hc
        exact hne (List.isEmpty_iff.mp hc)
      simp only [onTrimAll, hbox, trimLoop_eq, if_neg hnotempty]
      exact ⟨rfl, rfl, rfl, rfl⟩

/-- Witness for claim C4: on the concrete two-document state, an invalid
box (xe ≤ xs) mutates nothing, and a valid box whose every persistence
fails also mutates nothing. -/
theorem c4_trim_validation_isolation_witness :
    onTrimAll (fun _ _ _ => (some 99 : Option ℕ)) (some 3) (some 3) (some 2) (some 9) exState =
      exState ∧
    onTrimAll (fun _ _ _ => (none : Option ℕ)) (some 0) (some 0) (some 5) (some 5) exState =
      exState :=
  ⟨(c4_trim_validation_isolation (fun _ _ _ => (some 99 : Option ℕ)) (some 3) (some 3) (some 2)
      (some 9) exState).2.1 3 3 2 9 (by decide),
   ((c4_trim_validation_isolation (fun _ _ _ => (none : Option ℕ)) (some 0) (some 0) (some 5)
      (some 5) exState).2.2 (0, 0, 5, 5) (by decide)).1 (fun pi _ => rfl)⟩

theorem addFilesLoop_mem {Img : Type} (openImg : List Char → Option Img)
    (input : List (List Char)) (st : AppState Img) (p : List Char) :
    p ∈ (addFilesLoop openImg input st).file_paths ↔
      p ∈ st.file_paths ∨ (p ∈ input ∧ extLower p ∈ ALLOWED_EXTS ∧ (openImg p).isSome) := by
  induction input generalizing st with
  | nil => simp [addFilesLoop]
  | cons q rest ih =>
    simp only [addFilesLoop]
    by_cases hc : extLower q ∈ ALLOWED_EXTS ∧ q ∉ st.file_paths
    · rw [if_pos hc]
      cases hq : openImg q with
      | none =>
        rw [ih]
        constructor
        · rintro (h | ⟨h1, h2⟩)
          · exact Or.inl h
          · exact Or.inr ⟨List.mem_cons_of_mem _ h1, h2⟩
        · rintro (h | ⟨hmem, hC⟩)
          · exact Or.inl h
          · rcases List.mem_cons.mp hmem with rfl | hmem2
            · rw [hq] at hC
              simp at hC
            · exact Or.inr ⟨hmem2, hC⟩
      | some img =>
        rw [ih]
        simp only [List.mem_append, List.mem_singleton]
        constructor
        · rintro ((h | h) | ⟨h1, h2⟩)
          · exact Or.inl h
          · subst h
            exact Or.inr ⟨List.mem_cons_self _ _, hc.1, by rw [hq]; rfl⟩
          · exact Or.inr ⟨List.mem_cons_of_mem _ h1, h2⟩
        · rintro (h | ⟨hmem, hC⟩)
          · exact Or.inl (Or.inl h)
          · rcases List.mem_cons.mp hmem with rfl | hmem2
            · exact Or.inl (Or.inr rfl)
            · exact Or.inr ⟨hmem2, hC⟩
    · rw [if_neg hc]
      rw [ih]
      constructor
      · rintro (h | ⟨h1, h2⟩)
        · exact Or.inl h
        · exact Or.inr ⟨List.mem_cons_of_mem _ h1, h2⟩
      · rintro (h | ⟨hmem, hC⟩)
        · exact Or.inl h
        · rcases List.mem_cons.mp hmem with rfl | hmem2
          · rcases not_and_or.mp hc with hna | hnn
            · exact absurd hC.1 hna
            · exact Or.inl (not_not.mp hnn)
          · exact Or.inr ⟨hmem2, hC⟩

theorem addFilesLoop_nodup {Img : Type} (openImg : List Char → Option Img)
    (input : List (List Char)) (st : AppState Img) (h : st.file_paths.Nodup) :
    (addFilesLoop openImg input st).file_paths.Nodup := by
  induction input generalizing st with
  | nil => exact h
  | cons q rest ih =>
    simp only [addFilesLoop]
    by_cases hc : extLower q ∈ ALLOWED_EXTS ∧ q ∉ st.file_paths
    · rw [if_pos hc]
      cases hq : openImg q with
      | none => exact ih st h
      | some img => exact ih _ (by simp [List.nodup_append, h, hc.2])
    · rw [if_neg hc]
      exact ih st h

theorem addFiles_paths {Img : Type} (openImg : List Char → Option Img)
    (input : List (List Char)) (st : AppState Img) :
    (addFiles openImg input st).file_paths = (addFilesLoop openImg input st).file_paths := by
  simp only [addFiles]
  split_ifs <;> rfl

/-- Claim C9: `AddFiles` adds a document exactly for those dropped paths
whose lowercased extension is in the whitelist, that are not already
loaded, and that open successfully; a path already present is skipped, so
starting from a duplicate-free path list the path list stays
duplicate-free. -/
theorem c9_addfiles_extension_nodup {Img : Type} (openImg : List Char → Option Img)
    (input : List (List Char)) (st : AppState Img) :
    (∀ p, p ∈ (addFiles openImg input st).file_paths ↔
      p ∈ st.file_paths ∨ (p ∈ input ∧ extLower p ∈ ALLOWED_EXTS ∧ (openImg p).isSome)) ∧
    (st.file_paths.Nodup → (addFiles openImg input st).file_paths.Nodup) := by
  constructor
  · intro p
    rw [addFiles_paths]
    exact addFilesLoop_mem openImg input st p
  · intro h
    rw [addFiles_paths]
    exact addFilesLoop_nodup openImg input st h

/-- Witness for claim C9: dropping a new PNG, a text file, an
already-loaded JPEG and a duplicate PNG onto the concrete state keeps the
path list duplicate-free. -/
theorem c9_addfiles_extension_nodup_witness :
    exState.file_paths.Nodup ∧
    (addFiles (fun _ => some 1)
      [['c', '.', 'p', 'n', 'g'], ['d', '.', 't', 'x', 't'], ['a', '.', 'j', 'p', 'g'],
       ['c', '.', 'p', 'n', 'g']] exState).file_paths.Nodup :=
  ⟨by decide,
   (c9_addfiles_extension_nodup (fun _ => some 1)
      [['c', '.', 'p', 'n', 'g'], ['d', '.', 't', 'x', 't'], ['a', '.', 'j', 'p', 'g'],
       ['c', '.', 'p', 'n', 'g']] exState).2 (by decide)⟩

/-- Claim C10: `OnPngReduce` leaves the whole session state (paths,
images, flags, history) unchanged when no files are loaded or when some
loaded path's lowercased extension is not `.png`. -/
theorem c10_pngreduce_guard {Img : Type} (persistReload : List Char → Img → Option Img)
    (st : AppState Img) :
    (st.file_paths = [] → onPngReduce persistReload st = st) ∧
    (∀ p, p ∈ st.file_paths → extLower p ≠ pngExt → onPngReduce persistReload st = st) := by
  constructor
  · intro h
    simp only [onPngReduce, h]
    rfl
  · intro p hp hne
    have hfp : st.file_paths.isEmpty = false := by
      cases hval : st.file_paths.isEmpty
      · rfl
      · rw [List.isEmpty_iff.mp hval] at hp
        exact absurd hp (List.not_mem_nil p)
    have hmem : p ∈ st.file_paths.filter (fun q => !(extLower q == pngExt)) :=
      List.mem_filter.mpr ⟨hp, by simp [hne]⟩
    have hfil : (st.file_paths.filter (fun q => !(extLower q == pngExt))).isEmpty = false := by
      cases hval : (st.file_paths.filter (fun q => !(extLower q == pngExt))).isEmpty
      · rfl
      · rw [List.isEmpty_iff.mp hval] at hmem
        exact absurd hmem (List.not_mem_nil p)
    simp only [onPngReduce, hfp, hfil, Bool.false_eq_true, if_false, Bool.not_false, if_true]

/-- Witness for claim C10: on the concrete mixed state (a PNG plus a
JPEG), the recolor operation leaves the state unchanged. -/
theorem c10_pngreduce_guard_witness :
    onPngReduce (fun _ _ => (some 5 : Option ℕ)) exStateMixed = exStateMixed :=
  (c10_pngreduce_guard (fun _ _ => (some 5 : Option ℕ)) exStateMixed).2
    ['b', '.', 'j', 'p', 'g'] (by decide) (by decide)

theorem tw_append (q : Char → Bool) (a b : List Char) (h : ∀ c ∈ a, q c = true) :
    (a ++ b).takeWhile q = a ++ b.takeWhile q := by
  induction a with
  | nil => simp
  | cons x xs ih =>
    simp only [List.cons_append, List.takeWhile_cons, h x (List.mem_cons_self x xs), if_true]
    rw [ih (fun c hc => h c (List.mem_cons_of_mem x hc))]

theorem take_takeWhile (q : Char → Bool) (l : List Char) :
    l.take (l.takeWhile q).length = l.takeWhile q := by
  induction l with
  | nil => rfl
  | cons x xs ih =>
    rw [List.takeWhile_cons]
    by_cases hx : q x = true
    · rw [if_pos hx]
      simp only [List.length_cons, List.take_succ_cons, ih]
    · rw [if_neg hx]
      rfl

theorem drop_takeWhile (q : Char → Bool) (l : List Char) :
    l.drop (l.takeWhile q).length = l.dropWhile q := by
  induction l with
  | nil => rfl
  | cons x xs ih =>
    rw [List.takeWhile_cons, List.dropWhile_cons]
    by_cases hx : q x = true
    · rw [if_pos hx, if_pos hx]
      simp only [List.length_cons, List.drop_succ_cons, ih]
    · rw [if_neg hx, if_neg hx]
      rfl

theorem head_dropWhile (q : Char → Bool) (l : List Char) (hd : Char) (tl : List Char)
    (h : l.dropWhile q = hd :: tl) : q hd = false := by
  induction l with
  | nil => simp at h
  | cons x xs ih =>
    rw [List.dropWhile_cons] at h
    by_cases hx : q x = true
    · rw [if_pos hx] at h
      exact ih h
    · rw [if_neg hx] at h
      cases h
      cases hqx : q hd with
      | false => rfl
      | true => exact absurd hqx hx

-- extLen on a path ending in "_bc" with an extension appended
theorem extLen_bc_ext (re rb : List Char) (hsep : ∀ c ∈ re, notSep c = true)
    (hdot : ∀ c ∈ re, notDot c = true) :
    extLen (re ++ '.' :: 'c' :: 'b' :: '_' :: rb) = re.length + 1 := by
  have h1 : (re ++ '.' :: 'c' :: 'b' :: '_' :: rb).takeWhile notSep =
      re ++ '.' :: 'c' :: 'b' :: '_' :: rb.takeWhile notSep := by
    rw [tw_append notSep re _ hsep]
    simp [List.takeWhile_cons, notSep, isSepChar]
  have h2 : (re ++ '.' :: 'c' :: 'b' :: '_' :: rb.takeWhile notSep).takeWhile notDot = re := by
    rw [tw_append notDot re _ hdot]
    simp [List.takeWhile_cons, notDot]
  simp only [extLen, h1, h2]
  rw [List.drop_left]
  simp [notDot]

theorem extLen_zero_prepend_bc (r : List Char) (h : extLen r = 0) :
    extLen ('c' :: 'b' :: '_' :: r) = 0 := by
  have hname : ('c' :: 'b' :: '_' :: r).takeWhile notSep =
      'c' :: 'b' :: '_' :: r.takeWhile notSep := by
    simp [List.takeWhile_cons, notSep, isSepChar]
  have hext : ('c' :: 'b' :: '_' :: r.takeWhile notSep).takeWhile notDot =
      'c' :: 'b' :: '_' :: (r.takeWhile notSep).takeWhile notDot := by
    simp [List.takeWhile_cons, notDot]
  simp only [extLen, hname, hext]
  simp only [List.length_cons, List.drop_succ_cons]
  simp only [extLen] at h
  cases hdrop : (r.takeWhile notSep).drop ((r.takeWhile notSep).takeWhile notDot).length with
  | nil => rfl
  | cons hd tl =>
    rw [hdrop] at h
    cases hany : tl.any notDot with
    | false => simp [hany]
    | true => simp [hany] at h

theorem splitext_of_extLen_zero (p : List Char) (h : extLen p.reverse = 0) :
    splitext p = (p, []) := by
  simp [splitext, h]

theorem endsWithBc_restore (b : List Char) (h : endsWithBc b = true) :
    b.take (b.length - 3) ++ bcChars = b := by
  have htake : b.reverse.take 3 = ['c', 'b', '_'] := by
    simpa [endsWithBc] using h
  have hb : b.reverse = ['c', 'b', '_'] ++ b.reverse.drop 3 := by
    conv_lhs => rw [← List.take_append_drop 3 b.reverse]
    rw [htake]
  have hbeq : b = (b.reverse.drop 3).reverse ++ ['_', 'b', 'c'] := by
    conv_lhs => rw [← List.reverse_reverse b]
    rw [hb]
    simp
  have hlen : (b.reverse.drop 3).reverse.length = b.length - 3 := by
    simp
  rw [hbeq]
  rw [show ((b.reverse.drop 3).reverse ++ ['_', 'b', 'c']).length - 3 =
      (b.reverse.drop 3).reverse.length by simp]
  rw [List.take_left]
  rfl

theorem endsWithBc_append (b : List Char) : endsWithBc (b ++ bcChars) = true := by
  simp [endsWithBc, bcChars, List.reverse_append]

theorem take_append_bc (b : List Char) : (b ++ bcChars).take ((b ++ bcChars).length - 3) = b := by
  rw [show (b ++ bcChars).length - 3 = b.length by simp [bcChars]]
  exact List.take_left b bcChars

theorem add_bc_of_extLen_zero (p : List Char) (h : extLen p.reverse = 0) :
    add_bc_suffix p = (if endsWithBc p then p.take (p.length - 3) else p) ++ bcChars := by
  simp [add_bc_suffix, splitext_of_extLen_zero p h]

theorem add_bc_suffix_idem_zero (p : List Char) (h : extLen p.reverse = 0) :
    add_bc_suffix (add_bc_suffix p) = add_bc_suffix p := by
  rw [add_bc_of_extLen_zero p h]
  by_cases hend : endsWithBc p = true
  · rw [if_pos hend, endsWithBc_restore p hend, add_bc_of_extLen_zero p h, if_pos hend,
      endsWithBc_restore p hend]
  · rw [if_neg hend]
    have hq : extLen (p ++ bcChars).reverse = 0 := by
      rw [show (p ++ bcChars).reverse = 'c' :: 'b' :: '_' :: p.reverse by
        simp [bcChars, List.reverse_append]]
      exact extLen_zero_prepend_bc p.reverse h
    rw [add_bc_of_extLen_zero _ hq, if_pos (endsWithBc_append p), take_append_bc p]

theorem add_bc_of_splitext (q B E : List Char) (h : splitext q = (B, E)) :
    add_bc_suffix q = (if endsWithBc B then B.take (B.length - 3) else B) ++ bcChars ++ E := by
  simp [add_bc_suffix, h]

theorem add_bc_suffix_idem_split (p : List Char) (hd : Char) (rtail : List Char)
    (hdrop : (p.reverse.takeWhile notSep).drop
        ((p.reverse.takeWhile notSep).takeWhile notDot).length = hd :: rtail)
    (hany : rtail.any notDot = true) :
    add_bc_suffix (add_bc_suffix p) = add_bc_suffix p := by
  set r := p.reverse with hr
  set dw := r.dropWhile notSep with hdw
  set rname := r.takeWhile notSep with hrname
  set rext := rname.takeWhile notDot with hrext
  have hhd : notDot hd = false := by
    apply head_dropWhile notDot rname hd rtail
    rw [← drop_takeWhile, ← hrext]
    exact hdrop
  have hhd2 : hd = '.' := by
    have h2 := hhd
    simp [notDot] at h2
    exact h2
  subst hhd2
  have hn : extLen r = rext.length + 1 := by
    simp only [extLen, ← hrname, ← hrext, hdrop, hany, if_true]
  have hname_decomp : rname = rext ++ '.' :: rtail := by
    conv_lhs => rw [← List.take_append_drop rext.length rname]
    rw [hdrop]
    congr 1
    rw [hrext]
    exact take_takeWhile notDot rname
  have hr_decomp : r = (rext ++ ['.']) ++ (rtail ++ dw) := by
    conv_lhs => rw [← List.takeWhile_append_dropWhile notSep r]
    rw [← hrname, ← hdw, hname_decomp]
    simp
  have hn_take : r.take (rext.length + 1) = rext ++ ['.'] := by
    conv_lhs => rw [hr_decomp]
    rw [show rext.length + 1 = (rext ++ ['.']).length by simp]
    exact List.take_left _ _
  have hn_drop : r.drop (rext.length + 1) = rtail ++ dw := by
    conv_lhs => rw [hr_decomp]
    rw [show rext.length + 1 = (rext ++ ['.']).length by simp]
    exact List.drop_left _ _
  have hsep_re : ∀ c ∈ rext, notSep c = true := by
    intro c hc
    rw [hrext] at hc
    have h1 : c ∈ rname := (List.takeWhile_prefix notDot).subset hc
    rw [hrname] at h1
    exact List.mem_takeWhile_imp h1
  have hdot_re : ∀ c ∈ rext, notDot c = true := by
    intro c hc
    rw [hrext] at hc
    exact List.mem_takeWhile_imp hc
  have hsp : splitext p = ((rtail ++ dw).reverse, (rext ++ ['.']).reverse) := by
    simp only [splitext, ← hr, hn, hn_take, hn_drop]
  have haddp : add_bc_suffix p =
      (if endsWithBc (rtail ++ dw).reverse then
        (rtail ++ dw).reverse.take ((rtail ++ dw).reverse.length - 3)
       else (rtail ++ dw).reverse) ++ bcChars ++ (rext ++ ['.']).reverse :=
    add_bc_of_splitext p _ _ hsp
  set base2 := (if endsWithBc (rtail ++ dw).reverse then
        (rtail ++ dw).reverse.take ((rtail ++ dw).reverse.length - 3)
       else (rtail ++ dw).reverse) with hbase2
  have hqrev : (add_bc_suffix p).reverse = rext ++ '.' :: 'c' :: 'b' :: '_' :: base2.reverse := by
    rw [haddp]
    simp [bcChars, List.reverse_append]
  have hnq : extLen (add_bc_suffix p).reverse = rext.length + 1 := by
    rw [hqrev]
    exact extLen_bc_ext rext base2.reverse hsep_re hdot_re
  have hassoc : rext ++ '.' :: 'c' :: 'b' :: '_' :: base2.reverse =
      (rext ++ ['.']) ++ ('c' :: 'b' :: '_' :: base2.reverse) := by
    simp
  have hq_take : (add_bc_suffix p).reverse.take (rext.length + 1) = rext ++ ['.'] := by
    rw [hqrev, hassoc, show rext.length + 1 = (rext ++ ['.']).length by simp]
    exact List.take_left _ _
  have hq_drop : (add_bc_suffix p).reverse.drop (rext.length + 1) =
      'c' :: 'b' :: '_' :: base2.reverse := by
    rw [hqrev, hassoc, show rext.length + 1 = (rext ++ ['.']).length by simp]
    exact List.drop_left _ _
  have hb2 : ('c' :: 'b' :: '_' :: base2.reverse).reverse = base2 ++ bcChars := by
    simp [bcChars]
  have hspq : splitext (add_bc_suffix p) = (base2 ++ bcChars, (rext ++ ['.']).reverse) := by
    simp only [splitext, hnq, hq_take, hq_drop, hb2]
  rw [add_bc_of_splitext _ _ _ hspq, if_pos (endsWithBc_append base2), take_append_bc base2,
    haddp]

theorem add_bc_suffix_idem (p : List Char) :
    add_bc_suffix (add_bc_suffix p) = add_bc_suffix p := by
  cases hdrop : (p.reverse.takeWhile notSep).drop
      ((p.reverse.takeWhile notSep).takeWhile notDot).length with
  | nil =>
    apply add_bc_suffix_idem_zero
    simp only [extLen, hdrop]
  | cons hd rtail =>
    cases hany : rtail.any notDot with
    | false =>
      apply add_bc_suffix_idem_zero
      simp only [extLen, hdrop, hany]
      rfl
    | true => exact add_bc_suffix_idem_split p hd rtail hdrop hany

/-- Claim C8: the output-path derivation `add_bc_suffix` is idempotent:
re-applying it to an already-suffixed path never duplicates the `_bc`
suffix. -/
theorem c8_add_bc_suffix_idempotent (p : List Char) :
    add_bc_suffix (add_bc_suffix p) = add_bc_suffix p :=
  add_bc_suffix_idem p
